import Mathlib

/-!
Verification of the command-boundary detection subsystem of the `vibe`
terminal host (`src-tauri/src/{pty,zdotdir,db,main}.rs`), as a shallow
embedding in Lean.  Bytes are modelled as `Nat`, byte strings as
`List Nat`, fallible operations as `Except`, and the ambient state the
Rust code touches (filesystem, channels, read results) as explicit
parameters.
-/

namespace Vibe

/-! ### Boundary protocol parser (module `osc`)

Modelled from the spec: the source file `osc.rs` (the `OscParser` /
`OscEvent` module used by `pty.rs` and `main.rs`) is not part of the
available sources; only its callers are.  The model below follows the
spec's grammar `MARKER := LEAD_IN KIND ';' SECRET ';' PAYLOAD LEAD_OUT`
with `KIND ∈ {CMD_START, CMD_END}`, a fixed OSC-style lead-in
(ESC `]`, bytes 27 93) and BEL (byte 7) as lead-out, streaming
byte-at-a-time recognition with a bounded in-flight marker span,
silent drop of secret-mismatching or malformed markers, and the
sentinel failure exit code for `CMD_END` payloads that are not valid
signed decimal integers.  Event names (`CommandText`, `CommandEnd`)
are the ones its caller `main.rs` matches on. -/

/-- Events the boundary parser emits (the two variants `main.rs` consumes;
further marker kinds are ignored and yield no event). -/
inductive OscEvent where
  | CommandText : List Nat → OscEvent
  | CommandEnd : Int → OscEvent
deriving DecidableEq, Repr

/-- Fixed lead-in byte sequence of a boundary marker: ESC `]`. -/
def leadIn : List Nat := [27, 93]

/-- Lead-out byte terminating a marker: BEL. -/
def leadOutByte : Nat := 7

/-- The field separator inside a marker: `;`. -/
def semiByte : Nat := 59

/-- Bound on the number of in-flight marker bytes buffered after the
lead-in; a marker not terminated within this span is discarded. -/
def maxMarkerLen : Nat := 4096

/-- Marker kind announcing a command start, as bytes: `CMD_START`. -/
def kindCmdStart : List Nat := [67, 77, 68, 95, 83, 84, 65, 82, 84]

/-- Marker kind announcing a command end, as bytes: `CMD_END`. -/
def kindCmdEnd : List Nat := [67, 77, 68, 95, 69, 78, 68]

/-- Sentinel exit code used when a `CMD_END` payload is not a valid
signed decimal integer. -/
def sentinelExit : Int := -1

/-- Split a byte list at its first `;`, returning the bytes before and
after it; `none` when no `;` occurs. -/
def splitSemi : List Nat → Option (List Nat × List Nat)
  | [] => none
  | b :: rest =>
    if b = semiByte then some ([], rest)
    else match splitSemi rest with
      | none => none
      | some (x, y) => some (b :: x, y)

/-- Value of an ASCII decimal digit byte, `none` for a non-digit. -/
def digitVal (b : Nat) : Option Nat :=
  if 48 ≤ b ∧ b ≤ 57 then some (b - 48) else none

/-- Parse a non-empty all-digit byte list as a natural number. -/
def parseDigits (bs : List Nat) : Option Nat :=
  match bs with
  | [] => none
  | _ =>
    bs.foldl
      (fun acc b =>
        match acc, digitVal b with
        | some a, some d => some (a * 10 + d)
        | _, _ => none)
      (some 0)

/-- Parse a signed decimal integer (optional `+`/`-` sign followed by at
least one digit), as Rust's `str::parse::<i32>` accepts. -/
def parseSignedInt (bs : List Nat) : Option Int :=
  match bs with
  | 43 :: rest => (parseDigits rest).map (fun n => (n : Int))
  | 45 :: rest => (parseDigits rest).map (fun n => -(n : Int))
  | _ => (parseDigits bs).map (fun n => (n : Int))

/-- Interpret the bytes between lead-in and lead-out of a completed
marker: split into kind, embedded secret and payload; drop the marker
silently unless the embedded secret equals the session secret. -/
def parseMarker (secret : List Nat) (buf : List Nat) : List OscEvent :=
  match splitSemi buf with
  | none => []
  | some (kind, rest) =>
    match splitSemi rest with
    | none => []
    | some (sec, payload) =>
      if sec = secret then
        if kind = kindCmdStart then [OscEvent.CommandText payload]
        else if kind = kindCmdEnd then
          [OscEvent.CommandEnd ((parseSignedInt payload).getD sentinelExit)]
        else []
      else []

/-- Streaming scanner state: outside any marker, after a bare ESC, or
inside a marker with the bytes accumulated since the lead-in. -/
inductive ScanState where
  | ground : ScanState
  | sawEsc : ScanState
  | marker : List Nat → ScanState
deriving DecidableEq, Repr

/-- State entered after processing byte `b` outside a marker. -/
def scanGround (b : Nat) : ScanState :=
  if b = 27 then ScanState.sawEsc else ScanState.ground

/-- The boundary protocol parser: bound to one immutable session secret,
carrying the in-flight scanner state. -/
structure OscParser where
  secret : List Nat
  state : ScanState
deriving DecidableEq, Repr

/-- A fresh parser bound to `secret`. -/
def OscParser.new (secret : List Nat) : OscParser :=
  ⟨secret, ScanState.ground⟩

/-- Process one byte: emitted events and the successor parser. -/
def OscParser.step (p : OscParser) (b : Nat) : List OscEvent × OscParser :=
  match p.state with
  | ScanState.ground => ([], { p with state := scanGround b })
  | ScanState.sawEsc =>
    if b = 93 then ([], { p with state := ScanState.marker [] })
    else ([], { p with state := scanGround b })
  | ScanState.marker buf =>
    if b = leadOutByte then
      (parseMarker p.secret buf, { p with state := ScanState.ground })
    else if maxMarkerLen ≤ buf.length then
      ([], { p with state := scanGround b })
    else ([], { p with state := ScanState.marker (buf ++ [b]) })

/-- Fold one byte into an (accumulated events, parser) pair. -/
def feedStep (r : List OscEvent × OscParser) (b : Nat) :
    List OscEvent × OscParser :=
  (r.1 ++ (r.2.step b).1, (r.2.step b).2)

/-- Feed one chunk to the parser: the events emitted while scanning it,
in order, and the parser afterwards. -/
def OscParser.feed (p : OscParser) (chunk : List Nat) :
    List OscEvent × OscParser :=
  chunk.foldl feedStep ([], p)

/-- Feed a sequence of chunks in order, concatenating the events of the
successive `feed` calls. -/
def OscParser.feedAll (p : OscParser) (chunks : List (List Nat)) :
    List OscEvent × OscParser :=
  chunks.foldl (fun r c => (r.1 ++ (r.2.feed c).1, (r.2.feed c).2)) ([], p)

/-- Fixture secret for concrete parser scenarios: 32 alphanumeric bytes. -/
def wSecret : List Nat := List.replicate 32 97

/-- Fixture forged secret differing from `wSecret`. -/
def wForged : List Nat := List.replicate 32 98

/-- Fixture payload bytes: `ls`. -/
def wPayload : List Nat := [108, 115]

/-- Fixture marker: a complete `CMD_START` marker carrying `wSecret`. -/
def wMarker : List Nat :=
  leadIn ++ (kindCmdStart ++ semiByte :: (wSecret ++ semiByte :: wPayload)) ++ [leadOutByte]

/-- Fixture non-integer `CMD_END` payload: `oops`. -/
def wBadPayload : List Nat := [111, 111, 112, 115]

/-! ### Shell-integration provisioner (`zdotdir.rs`)

`ZdotdirSetup::create` reads `HOME` and generates a random 32-byte
alphanumeric nonce; both are modelled as explicit parameters (`home`,
`nonce`).  The filesystem is modelled as an association list from paths
to file contents; `fs::create_dir_all` (which only makes directories)
is not represented in it.  `ZdotdirSetup::cleanup` consults
`Path::exists` and calls `fs::remove_dir_all`; those two interactions
with the real filesystem are modelled as explicit inputs. -/

/-- Rust's `str::replace` on character lists: replace every
non-overlapping occurrence of `pat`, scanning left to right.  (Our
patterns are never empty; an empty `pat` performs no replacement.) -/
def replaceList (pat rep : List Char) : List Char → List Char
  | [] => []
  | c :: rest =>
    if pat.isPrefixOf (c :: rest) && !pat.isEmpty then
      rep ++ replaceList pat rep (List.drop (pat.length - 1) rest)
    else
      c :: replaceList pat rep rest
  termination_by s => s.length
  decreasing_by
    · simp only [List.length_drop, List.length_cons]; omega
    · simp only [List.length_cons]; omega

/-- Rust's `str::replace` on strings: `rustReplace s pat rep` is
`s.replace(pat, rep)`. -/
def rustReplace (s pat rep : String) : String :=
  String.mk (replaceList pat.data rep.data s.data)

/-- Template placeholder for the session id. -/
def phSessionId : String := "\x7b\x7bSESSION_ID\x7d\x7d"

/-- Template placeholder for the session nonce. -/
def phNonce : String := "\x7b\x7bNONCE\x7d\x7d"

/-- Template placeholder for the integration script directory. -/
def phIntegrationPath : String := "\x7b\x7bVIBE_INTEGRATION_PATH\x7d\x7d"

/-- The isolated per-session directory: `$HOME/.vibecodings/zshrc/<session_id>`. -/
def zdotdirPath (home sessionId : String) : String :=
  home ++ "/.vibecodings/zshrc/" ++ sessionId

/-- The fixed integration script directory: `$HOME/vibe-terminal/shell-integration`. -/
def integrationPath (home : String) : String :=
  home ++ "/vibe-terminal/shell-integration"

/-- Path of the start-up file template: `<integration>/.zshrc.template`. -/
def templatePath (home : String) : String :=
  integrationPath home ++ "/.zshrc.template"

/-- Filesystem model: an association list from paths to file contents,
newest entry first. -/
abbrev FS := List (String × String)

/-- Read a file: the content of the newest entry at the path. -/
def fsRead (fs : FS) (p : String) : Option String :=
  (fs.find? (fun e => e.1 == p)).map Prod.snd

/-- Write a file, shadowing any previous content at the path. -/
def fsWrite (fs : FS) (p c : String) : FS := (p, c) :: fs

/-- Provisioned shell-integration artifact: directory path and nonce. -/
structure ZdotdirSetup where
  zdotdir_path : String
  nonce : String
deriving DecidableEq, Repr

/-- `ZdotdirSetup::create`: read the template, substitute the three
placeholders, and write the rendered `.zshrc` into the per-session
directory.  Fails when the template file is missing. -/
def ZdotdirSetup.create (fs : FS) (home sessionId nonce : String) :
    Except String (ZdotdirSetup × FS) :=
  let zp := zdotdirPath home sessionId
  let ip := integrationPath home
  match fsRead fs (templatePath home) with
  | none => Except.error "Failed to read .zshrc.template"
  | some template =>
    let content :=
      rustReplace (rustReplace (rustReplace template phSessionId sessionId)
        phNonce nonce) phIntegrationPath ip
    Except.ok (⟨zp, nonce⟩, fsWrite fs (zp ++ "/.zshrc") content)

/-- `ZdotdirSetup::cleanup`: remove the directory only when it exists;
`dirExists` models `Path::exists`, `removeResult` the outcome of
`fs::remove_dir_all` were it invoked. -/
def ZdotdirSetup.cleanup (dirExists : Bool) (removeResult : Except String Unit) :
    Except String Unit :=
  if dirExists then
    match removeResult with
    | Except.ok _ => Except.ok ()
    | Except.error e => Except.error ("Failed to cleanup ZDOTDIR: " ++ e)
  else Except.ok ()

/-- Fixture home directory. -/
def wHome : String := "/home/u"

/-- Fixture start-up file template containing all three placeholders. -/
def wTemplate : String :=
  "export VIBE_SESSION_ID=\x7b\x7bSESSION_ID\x7d\x7d\nexport VIBE_NONCE=\x7b\x7bNONCE\x7d\x7d\nsource \x7b\x7bVIBE_INTEGRATION_PATH\x7d\x7d/vibe.zsh\n"

/-- Fixture filesystem holding only the template file. -/
def wFs : FS := [(templatePath wHome, wTemplate)]

/-! ### PTY session (`pty.rs`)

`PtySession::new` is a straight line of fallible steps, each exiting
early with `?`; spawning and channel wiring aside, the observable
effect modelled here is whether the provisioned zdotdir directory is
still on disk when `new` returns, since `ZdotdirSetup` has no `Drop`
implementation and `PtySession::new` performs no error-path cleanup.
The reader thread's loop is modelled over the finite trace of values
its `reader.read` calls produce; the channels are modelled as the
lists of items sent on them (both stay open while the session lives). -/

/-- Which of the fallible steps of `PtySession::new` succeed. -/
structure PtyNewEnv where
  openptyOk : Bool
  zdotdirCreateOk : Bool
  spawnOk : Bool
  cloneReaderOk : Bool
  takeWriterOk : Bool
deriving DecidableEq, Repr

/-- `PtySession::new`: the construction result together with whether the
provisioned per-session zdotdir directory remains on disk when it
returns.  Provisioning happens after `openpty` and before `spawn`; no
later failure removes the directory. -/
def PtySession.new (env : PtyNewEnv) : Except String Unit × Bool :=
  if !env.openptyOk then (Except.error "Failed to create PTY", false)
  else if !env.zdotdirCreateOk then (Except.error "Failed to create ZDOTDIR", false)
  else if !env.spawnOk then (Except.error "Failed to spawn shell", true)
  else if !env.cloneReaderOk then (Except.error "Failed to clone PTY reader", true)
  else if !env.takeWriterOk then (Except.error "Failed to take PTY writer", true)
  else (Except.ok (), true)

/-- One result of the reader thread's `reader.read(&mut buf)` call:
either `Ok(n)` delivering `n` bytes (`n = 0` is end-of-stream) or an
I/O error. -/
inductive ReadResult where
  | bytes : List Nat → ReadResult
  | ioError : String → ReadResult
deriving DecidableEq, Repr

/-- The reader thread's loop over a finite trace of read results: the
chunks pushed on the raw output channel and the events pushed on the
event channel, in order.  The loop breaks on end-of-stream (a
zero-length read) or an I/O error. -/
def readerLoop (p : OscParser) : List ReadResult → List (List Nat) × List OscEvent
  | [] => ([], [])
  | ReadResult.ioError _ :: _ => ([], [])
  | ReadResult.bytes data :: rest =>
    if data.isEmpty then ([], [])
    else
      let fed := p.feed data
      let tail := readerLoop fed.2 rest
      (data :: tail.1, fed.1 ++ tail.2)

/-- The non-empty chunks delivered by successive reads up to the first
end-of-stream or I/O error, exactly as read. -/
def rawChunksRead : List ReadResult → List (List Nat)
  | [] => []
  | ReadResult.ioError _ :: _ => []
  | ReadResult.bytes data :: rest =>
    if data.isEmpty then [] else data :: rawChunksRead rest

/-- Outcome of `Drop for PtySession`: whether zdotdir cleanup was
attempted, what was logged, and what error reached the caller (`drop`
returns `()`, so none ever can). -/
structure DropOutcome where
  cleanupAttempted : Bool
  loggedMessage : Option String
  surfacedError : Option String
deriving DecidableEq, Repr

/-- `impl Drop for PtySession`: always calls `self.zdotdir.cleanup()`;
a failure is written to stderr and never propagated. -/
def PtySession.drop (cleanupResult : Except String Unit) : DropOutcome :=
  match cleanupResult with
  | Except.ok _ => ⟨true, none, none⟩
  | Except.error e => ⟨true, some ("Failed to cleanup ZDOTDIR: " ++ e), none⟩

/-- `PtySession::write_input`: send the bytes on the writer channel.
`writerTerminated` models the channel being disconnected because the
writer thread has exited (the only failure mode of an unbounded
channel send); `queue` is the list of items currently enqueued. -/
def PtySession.write_input (writerTerminated : Bool) (queue : List (List Nat))
    (data : List Nat) : Except String (List (List Nat)) :=
  if writerTerminated then Except.error "Failed to send input to PTY"
  else Except.ok (queue ++ [data])

/-! ### Persistence layer (`db.rs`)

Only `Database::end_command` is needed: the `commands` table is
modelled as a list of rows (`id` is the primary key), the
`SELECT ... WHERE session_id = ? AND ended_at IS NULL ORDER BY
started_at DESC LIMIT 1` as a fold picking a row with maximal
`started_at` among the session's unfinished rows, and the
`UPDATE ... WHERE id = ?` as a map over the rows. -/

/-- One row of the `commands` table. -/
structure CmdRow where
  id : String
  session_id : String
  input : Option String
  exit_code : Option Int
  started_at : Int
  ended_at : Option Int
deriving DecidableEq, Repr

/-- Keep the row with the larger `started_at` (first seen wins ties),
as `ORDER BY started_at DESC LIMIT 1` selects. -/
def pickLatest (acc : Option CmdRow) (r : CmdRow) : Option CmdRow :=
  match acc with
  | none => some r
  | some b => if b.started_at < r.started_at then some r else some b

/-- The `SELECT` of `end_command`: a most recently started row of the
session with `ended_at IS NULL`, if any. -/
def selectLatestUnfinished (rows : List CmdRow) (sid : String) : Option CmdRow :=
  (rows.filter (fun r => r.session_id == sid && r.ended_at.isNone)).foldl pickLatest none

/-- The `UPDATE` applied to the selected row: set `ended_at` and
`exit_code`, leave all other fields. -/
def endCommandUpdate (now exitCode : Int) (r : CmdRow) : CmdRow :=
  { r with ended_at := some now, exit_code := some exitCode }

/-- `Database::end_command`: find the most recent unfinished command of
the session and update it; succeed without touching the table when
there is none. -/
def Database.end_command (rows : List CmdRow) (sid : String) (exitCode now : Int) :
    List CmdRow :=
  match selectLatestUnfinished rows sid with
  | none => rows
  | some c =>
    rows.map (fun r => if r.id == c.id then endCommandUpdate now exitCode r else r)

/-- Fixture `commands` table: two rows of session `s1` (one finished,
one unfinished) and one unfinished row of session `s2`. -/
def wRows : List CmdRow :=
  [⟨"a", "s1", some "ls", none, 10, none⟩,
   ⟨"b", "s1", some "pwd", some 0, 5, some 6⟩,
   ⟨"c", "s2", some "make", none, 20, none⟩]

theorem foldl_feedStep_acc (chunk : List Nat) :
    ∀ (evs : List OscEvent) (p : OscParser),
      chunk.foldl feedStep (evs, p) =
        (evs ++ (p.feed chunk).1, (p.feed chunk).2) := by
  induction chunk with
  | nil => intro evs p; simp [OscParser.feed]
  | cons b rest ih =>
    intro evs p
    simp only [List.foldl_cons, OscParser.feed]
    rw [show feedStep (evs, p) b = (evs ++ (p.step b).1, (p.step b).2) from rfl,
        ih (evs ++ (p.step b).1) (p.step b).2,
        show feedStep ([], p) b = ([] ++ (p.step b).1, (p.step b).2) from rfl,
        ih ([] ++ (p.step b).1) (p.step b).2]
    simp

theorem feed_append (p : OscParser) (a b : List Nat) :
    p.feed (a ++ b) =
      ((p.feed a).1 ++ ((p.feed a).2.feed b).1, ((p.feed a).2.feed b).2) := by
  simp only [OscParser.feed, List.foldl_append]
  rw [show (List.foldl feedStep ([], p) a) = p.feed a from rfl]
  rw [show p.feed a = ((p.feed a).1, (p.feed a).2) from rfl]
  exact foldl_feedStep_acc b (p.feed a).1 (p.feed a).2

theorem foldl_feedAll_acc (chunks : List (List Nat)) :
    ∀ (evs : List OscEvent) (p : OscParser),
      chunks.foldl (fun r c => (r.1 ++ (r.2.feed c).1, (r.2.feed c).2)) (evs, p) =
        (evs ++ (p.feedAll chunks).1, (p.feedAll chunks).2) := by
  induction chunks with
  | nil => intro evs p; simp [OscParser.feedAll]
  | cons c rest ih =>
    intro evs p
    simp only [List.foldl_cons, OscParser.feedAll]
    rw [ih (evs ++ (p.feed c).1) (p.feed c).2, ih ([] ++ (p.feed c).1) (p.feed c).2]
    simp

/-- Feeding chunks one at a time is the same as feeding their
concatenation in one call. -/
theorem feedAll_eq_feed_flatten (p : OscParser) (chunks : List (List Nat)) :
    p.feedAll chunks = p.feed chunks.flatten := by
  induction chunks generalizing p with
  | nil => simp [OscParser.feedAll, OscParser.feed]
  | cons c rest ih =>
    simp only [OscParser.feedAll, List.foldl_cons, List.flatten_cons]
    rw [foldl_feedAll_acc rest ([] ++ (p.feed c).1) (p.feed c).2]
    rw [feed_append p c rest.flatten, ← ih (p.feed c).2]
    simp [OscParser.feedAll]

theorem feed_cons (p : OscParser) (b : Nat) (rest : List Nat) :
    p.feed (b :: rest) =
      ((p.step b).1 ++ ((p.step b).2.feed rest).1, ((p.step b).2.feed rest).2) := by
  simp only [OscParser.feed, List.foldl_cons, feedStep]
  rw [foldl_feedStep_acc]
  simp [OscParser.feed]

theorem feed_in_marker (content : List Nat) :
    ∀ (secret buf : List Nat),
      leadOutByte ∉ content →
      buf.length + content.length ≤ maxMarkerLen →
      (OscParser.mk secret (ScanState.marker buf)).feed content =
        ([], OscParser.mk secret (ScanState.marker (buf ++ content))) := by
  induction content with
  | nil =>
    intro secret buf _ _
    simp [OscParser.feed]
  | cons b rest ih =>
    intro secret buf h7 hlen
    have hb7 : ¬ b = leadOutByte := fun e => h7 (by simp [e])
    have hlt : ¬ maxMarkerLen ≤ buf.length := by
      simp only [List.length_cons] at hlen; omega
    have hstep : (OscParser.mk secret (ScanState.marker buf)).step b =
        ([], OscParser.mk secret (ScanState.marker (buf ++ [b]))) := by
      simp [OscParser.step, hb7, hlt]
    rw [feed_cons, hstep]
    have h7' : leadOutByte ∉ rest := fun hm => h7 (by simp [hm])
    have hlen' : (buf ++ [b]).length + rest.length ≤ maxMarkerLen := by
      simp only [List.length_append, List.length_cons, List.length_nil] at hlen ⊢; omega
    rw [ih secret (buf ++ [b]) h7' hlen']
    simp

theorem feed_leadOut (secret buf : List Nat) :
    (OscParser.mk secret (ScanState.marker buf)).feed [leadOutByte] =
      (parseMarker secret buf, OscParser.mk secret ScanState.ground) := by
  simp [OscParser.feed, feedStep, OscParser.step, leadOutByte]

theorem feed_leadIn (secret : List Nat) :
    (OscParser.new secret).feed leadIn =
      ([], OscParser.mk secret (ScanState.marker [])) := rfl

theorem splitSemi_append (xs ys : List Nat) (h : semiByte ∉ xs) :
    splitSemi (xs ++ semiByte :: ys) = some (xs, ys) := by
  induction xs with
  | nil => simp [splitSemi]
  | cons a rest ih =>
    have ha : ¬ a = semiByte := fun e => h (by simp [e])
    have hrest : semiByte ∉ rest := fun hm => h (by simp [hm])
    simp [splitSemi, ha, ih hrest]

theorem parseMarker_structured (secret kind sec payload : List Nat)
    (hk : semiByte ∉ kind) (hs : semiByte ∉ sec) :
    parseMarker secret (kind ++ semiByte :: (sec ++ semiByte :: payload)) =
      (if sec = secret then
        (if kind = kindCmdStart then [OscEvent.CommandText payload]
         else if kind = kindCmdEnd then
           [OscEvent.CommandEnd ((parseSignedInt payload).getD sentinelExit)]
         else [])
       else []) := by
  simp [parseMarker, splitSemi_append _ _ hk, splitSemi_append _ _ hs]

theorem feed_wellformed_marker (psecret kind sec payload : List Nat)
    (hk7 : leadOutByte ∉ kind) (hs7 : leadOutByte ∉ sec)
    (hp7 : leadOutByte ∉ payload)
    (hlen : kind.length + 1 + (sec.length + 1 + payload.length) ≤ maxMarkerLen) :
    (OscParser.new psecret).feed
        (leadIn ++ (kind ++ semiByte :: (sec ++ semiByte :: payload)) ++ [leadOutByte]) =
      (parseMarker psecret (kind ++ semiByte :: (sec ++ semiByte :: payload)),
        OscParser.mk psecret ScanState.ground) := by
  have h7mid : leadOutByte ∉ kind ++ semiByte :: (sec ++ semiByte :: payload) := by
    intro hm
    rcases List.mem_append.mp hm with h | h
    · exact hk7 h
    · rcases List.mem_cons.mp h with h | h
      · exact absurd h (by decide)
      · rcases List.mem_append.mp h with h | h
        · exact hs7 h
        · rcases List.mem_cons.mp h with h | h
          · exact absurd h (by decide)
          · exact hp7 h
  have hlenmid :
      ([] : List Nat).length +
        (kind ++ semiByte :: (sec ++ semiByte :: payload)).length ≤ maxMarkerLen := by
    simp only [List.length_nil, List.length_append, List.length_cons]
    omega
  rw [feed_append, feed_append, feed_leadIn]
  simp only
  rw [feed_in_marker _ psecret [] h7mid hlenmid]
  simp only [List.nil_append]
  rw [feed_leadOut]

/-- C1: a well-formed boundary marker whose embedded secret is not
byte-for-byte equal to the parser's configured secret produces no event,
for any marker kind and any payload: it is silently dropped, not
surfaced as an event and not treated as an error (the parser has no
error outcome at all). -/
theorem osc_wrong_secret_no_event (psecret kind sec payload : List Nat)
    (hne : sec ≠ psecret)
    (hk7 : leadOutByte ∉ kind) (hks : semiByte ∉ kind)
    (hs7 : leadOutByte ∉ sec) (hss : semiByte ∉ sec)
    (hp7 : leadOutByte ∉ payload)
    (hlen : kind.length + 1 + (sec.length + 1 + payload.length) ≤ maxMarkerLen) :
    ((OscParser.new psecret).feed
        (leadIn ++ (kind ++ semiByte :: (sec ++ semiByte :: payload)) ++ [leadOutByte])).1 =
      [] := by
  rw [feed_wellformed_marker psecret kind sec payload hk7 hs7 hp7 hlen]
  simp [parseMarker_structured psecret kind sec payload hks hss, hne]

theorem osc_wrong_secret_no_event_witness :
    (wForged ≠ wSecret ∧
      leadOutByte ∉ kindCmdStart ∧ semiByte ∉ kindCmdStart ∧
      leadOutByte ∉ wForged ∧ semiByte ∉ wForged ∧
      leadOutByte ∉ wPayload ∧
      kindCmdStart.length + 1 + (wForged.length + 1 + wPayload.length) ≤ maxMarkerLen) ∧
    ((OscParser.new wSecret).feed
        (leadIn ++ (kindCmdStart ++ semiByte :: (wForged ++ semiByte :: wPayload)) ++
          [leadOutByte])).1 = [] :=
  ⟨⟨by decide, by decide, by decide, by decide, by decide, by decide, by decide⟩,
    osc_wrong_secret_no_event wSecret kindCmdStart wForged wPayload
      (by decide) (by decide) (by decide) (by decide) (by decide) (by decide) (by decide)⟩

/-- C2: the event sequence produced by the parser depends only on the
concatenated byte stream, not on how the stream is split into chunks:
any two chunkings of the same bytes yield the same events. -/
theorem osc_chunking_invariant (p : OscParser) (cs1 cs2 : List (List Nat))
    (h : cs1.flatten = cs2.flatten) :
    (p.feedAll cs1).1 = (p.feedAll cs2).1 := by
  rw [feedAll_eq_feed_flatten, feedAll_eq_feed_flatten, h]

theorem osc_chunking_invariant_witness :
    ([wMarker] : List (List Nat)).flatten = [wMarker.take 10, wMarker.drop 10].flatten ∧
    (((OscParser.new wSecret).feedAll [wMarker]).1 =
      ((OscParser.new wSecret).feedAll [wMarker.take 10, wMarker.drop 10]).1) :=
  ⟨by simp, osc_chunking_invariant (OscParser.new wSecret) [wMarker]
    [wMarker.take 10, wMarker.drop 10] (by simp)⟩

/-- C6: a complete `CMD_END` marker carrying the parser's own secret but
a payload that is not a valid signed decimal integer yields a
`CommandEnd` event with the sentinel failure exit code; the malformed
payload is never escalated into an error. -/
theorem osc_cmd_end_invalid_payload_sentinel (psecret payload : List Nat)
    (hs7 : leadOutByte ∉ psecret) (hss : semiByte ∉ psecret)
    (hp7 : leadOutByte ∉ payload)
    (hbad : parseSignedInt payload = none)
    (hlen : kindCmdEnd.length + 1 + (psecret.length + 1 + payload.length) ≤ maxMarkerLen) :
    ((OscParser.new psecret).feed
        (leadIn ++ (kindCmdEnd ++ semiByte :: (psecret ++ semiByte :: payload)) ++
          [leadOutByte])).1 =
      [OscEvent.CommandEnd sentinelExit] := by
  rw [feed_wellformed_marker psecret kindCmdEnd psecret payload
    (by decide) hs7 hp7 hlen]
  rw [parseMarker_structured psecret kindCmdEnd psecret payload (by decide) hss]
  simp [hbad, kindCmdStart, kindCmdEnd]

theorem osc_cmd_end_invalid_payload_sentinel_witness :
    (leadOutByte ∉ wSecret ∧ semiByte ∉ wSecret ∧ leadOutByte ∉ wBadPayload ∧
      parseSignedInt wBadPayload = none ∧
      kindCmdEnd.length + 1 + (wSecret.length + 1 + wBadPayload.length) ≤ maxMarkerLen) ∧
    ((OscParser.new wSecret).feed
        (leadIn ++ (kindCmdEnd ++ semiByte :: (wSecret ++ semiByte :: wBadPayload)) ++
          [leadOutByte])).1 =
      [OscEvent.CommandEnd sentinelExit] :=
  ⟨⟨by decide, by decide, by decide, by decide, by decide⟩,
    osc_cmd_end_invalid_payload_sentinel wSecret wBadPayload
      (by decide) (by decide) (by decide) (by decide) (by decide)⟩

/-- C3: the claim says a spawn failure after successful provisioning
cleans up the provisioned artifact directory before the error is
returned.  The code does not: `ZdotdirSetup` has no `Drop`
implementation and `PtySession::new` has no error-path cleanup, so in
the environment where `openpty` and provisioning succeed and
`spawn_command` fails, `new` returns the error with the per-session
directory still on disk. -/
theorem ptyNew_spawn_failure_leaves_artifact :
    PtySession.new ⟨true, true, false, true, true⟩ =
      (Except.error "Failed to spawn shell", true) := rfl

/-- C4: the chunks the reader thread pushes on the raw output channel
are byte-for-byte the non-empty chunks it read, independent of the
parser and of any markers recognized inside them: nothing is removed,
altered, duplicated, or suppressed on the raw output path. -/
theorem reader_raw_output_unaltered (p : OscParser) (reads : List ReadResult) :
    (readerLoop p reads).1 = rawChunksRead reads := by
  induction reads generalizing p with
  | nil => rfl
  | cons r rest ih =>
    cases r with
    | ioError m => rfl
    | bytes data =>
      by_cases h : data.isEmpty
      · simp [readerLoop, rawChunksRead, h]
      · simp [readerLoop, rawChunksRead, h, ih]

/-- C5: dropping a `PtySession` (Rust runs `Drop::drop` on every discard
path, explicit end-of-session or abrupt drop alike) always attempts the
zdotdir cleanup synchronously; a cleanup failure is logged to stderr
and no error ever reaches the caller. -/
theorem pty_drop_cleanup_best_effort (r : Except String Unit) :
    (PtySession.drop r).cleanupAttempted = true ∧
    (PtySession.drop r).surfacedError = none ∧
    (PtySession.drop r).loggedMessage =
      (match r with
       | Except.ok _ => none
       | Except.error e => some ("Failed to cleanup ZDOTDIR: " ++ e)) := by
  cases r <;> simp [PtySession.drop]

/-- C7: `write_input` enqueues the bytes for the writer worker and
returns an error exactly when the writer worker has already terminated
(the channel is disconnected); in every other state it succeeds,
appending the bytes to the input queue. -/
theorem write_input_error_iff_writer_terminated (t : Bool) (q : List (List Nat))
    (d : List Nat) :
    ((∃ e, PtySession.write_input t q d = Except.error e) ↔ t = true) ∧
    (t = false → PtySession.write_input t q d = Except.ok (q ++ [d])) := by
  cases t <;> simp [PtySession.write_input]

theorem write_input_error_iff_writer_terminated_witness :
    PtySession.write_input false [] [104] = Except.ok [[104]] :=
  (write_input_error_iff_writer_terminated false [] [104]).2 rfl

/-- C8: when the template file is readable, provisioning succeeds and
writes, at `.zshrc` inside the per-session directory derived from the
session id, exactly the template text with the `SESSION_ID`, `NONCE`
and `VIBE_INTEGRATION_PATH` placeholders replaced by the session id,
the generated secret and the integration script path respectively; the
returned artifact carries that directory and the secret. -/
theorem zdotdir_create_renders_template (fs : FS) (home sid nonce template : String)
    (ht : fsRead fs (templatePath home) = some template) :
    ∃ fs', ZdotdirSetup.create fs home sid nonce =
        Except.ok (⟨zdotdirPath home sid, nonce⟩, fs') ∧
      fsRead fs' (zdotdirPath home sid ++ "/.zshrc") =
        some (rustReplace (rustReplace (rustReplace template phSessionId sid)
          phNonce nonce) phIntegrationPath (integrationPath home)) := by
  unfold ZdotdirSetup.create
  rw [ht]
  refine ⟨_, rfl, ?_⟩
  simp [fsRead, fsWrite, List.find?]

theorem zdotdir_create_renders_template_witness :
    fsRead wFs (templatePath wHome) = some wTemplate ∧
    ∃ fs', ZdotdirSetup.create wFs wHome "sid1" "n1" =
        Except.ok (⟨zdotdirPath wHome "sid1", "n1"⟩, fs') ∧
      fsRead fs' (zdotdirPath wHome "sid1" ++ "/.zshrc") =
        some (rustReplace (rustReplace (rustReplace wTemplate phSessionId "sid1")
          phNonce "n1") phIntegrationPath (integrationPath wHome)) :=
  ⟨rfl, zdotdir_create_renders_template wFs wHome "sid1" "n1" wTemplate rfl⟩

/-- C9: cleanup when the isolated directory is already absent (for
example after a previous successful cleanup) skips removal entirely and
returns success, whatever removal would have done. -/
theorem zdotdir_cleanup_absent_ok (removeResult : Except String Unit) :
    ZdotdirSetup.cleanup false removeResult = Except.ok () := rfl

theorem foldl_pickLatest_some (l : List CmdRow) :
    ∀ b : CmdRow, ∃ c, l.foldl pickLatest (some b) = some c ∧
      (c = b ∨ c ∈ l) ∧ b.started_at ≤ c.started_at ∧
      ∀ q ∈ l, q.started_at ≤ c.started_at := by
  induction l with
  | nil => intro b; exact ⟨b, rfl, Or.inl rfl, le_refl _, by simp⟩
  | cons a l ih =>
    intro b
    by_cases h : b.started_at < a.started_at
    · obtain ⟨c, hc, hmem, hle, hall⟩ := ih a
      refine ⟨c, ?_, ?_, ?_, ?_⟩
      · simpa [pickLatest, h] using hc
      · rcases hmem with rfl | hm
        · exact Or.inr (List.mem_cons_self _ _)
        · exact Or.inr (List.mem_cons_of_mem _ hm)
      · exact le_trans (le_of_lt h) hle
      · intro q hq
        rcases List.mem_cons.mp hq with rfl | hm
        · exact hle
        · exact hall q hm
    · obtain ⟨c, hc, hmem, hle, hall⟩ := ih b
      refine ⟨c, ?_, ?_, ?_, ?_⟩
      · simpa [pickLatest, h] using hc
      · rcases hmem with rfl | hm
        · exact Or.inl rfl
        · exact Or.inr (List.mem_cons_of_mem _ hm)
      · exact hle
      · intro q hq
        rcases List.mem_cons.mp hq with rfl | hm
        · exact le_trans (not_lt.mp h) hle
        · exact hall q hm

theorem selectLatestUnfinished_none (rows : List CmdRow) (sid : String)
    (hsel : selectLatestUnfinished rows sid = none) :
    ∀ r ∈ rows, ¬(r.session_id = sid ∧ r.ended_at = none) := by
  intro r hr hprops
  have hcand : r ∈ rows.filter (fun r => r.session_id == sid && r.ended_at.isNone) := by
    rw [List.mem_filter]
    refine ⟨hr, ?_⟩
    simp [hprops.1, hprops.2]
  rcases hl : rows.filter (fun r => r.session_id == sid && r.ended_at.isNone) with _ | ⟨a, l⟩
  · rw [hl] at hcand; exact absurd hcand (List.not_mem_nil r)
  · unfold selectLatestUnfinished at hsel
    rw [hl] at hsel
    obtain ⟨c, hc, -, -, -⟩ := foldl_pickLatest_some l a
    rw [show List.foldl pickLatest none (a :: l) = List.foldl pickLatest (some a) l from rfl,
      hc] at hsel
    exact Option.some_ne_none c hsel

theorem selectLatestUnfinished_some (rows : List CmdRow) (sid : String) (c : CmdRow)
    (hsel : selectLatestUnfinished rows sid = some c) :
    c ∈ rows ∧ c.session_id = sid ∧ c.ended_at = none ∧
      ∀ q ∈ rows, q.session_id = sid → q.ended_at = none →
        q.started_at ≤ c.started_at := by
  rcases hl : rows.filter (fun r => r.session_id == sid && r.ended_at.isNone) with _ | ⟨a, l⟩
  · unfold selectLatestUnfinished at hsel
    rw [hl] at hsel
    exact absurd hsel (by simp)
  · unfold selectLatestUnfinished at hsel
    rw [hl] at hsel
    obtain ⟨c', hc', hmem, hle, hall⟩ := foldl_pickLatest_some l a
    rw [show List.foldl pickLatest none (a :: l) = List.foldl pickLatest (some a) l from rfl,
      hc'] at hsel
    have hcc : c' = c := Option.some.inj hsel
    subst hcc
    have hcand : c' ∈ rows.filter (fun r => r.session_id == sid && r.ended_at.isNone) := by
      rw [hl]
      rcases hmem with rfl | hm
      · exact List.mem_cons_self _ _
      · exact List.mem_cons_of_mem _ hm
    have hc : c' ∈ rows ∧ (c'.session_id == sid && c'.ended_at.isNone) = true :=
      List.mem_filter.mp hcand
    have hprops : c'.session_id = sid ∧ c'.ended_at = none := by
      have := hc.2
      simp only [Bool.and_eq_true, beq_iff_eq, Option.isNone_iff_eq_none] at this
      exact this
    refine ⟨hc.1, hprops.1, hprops.2, ?_⟩
    intro q hq hqs hqe
    have hqcand : q ∈ rows.filter (fun r => r.session_id == sid && r.ended_at.isNone) := by
      rw [List.mem_filter]
      exact ⟨hq, by simp [hqs, hqe]⟩
    rw [hl] at hqcand
    rcases List.mem_cons.mp hqcand with rfl | hm
    · exact hle
    · exact hall q hm

theorem map_update_id_eq_set (rows : List CmdRow) (i : Nat) (hi : i < rows.length)
    (hids : (rows.map CmdRow.id).Nodup) (f : CmdRow → CmdRow) :
    rows.map (fun r => if r.id == (rows.get ⟨i, hi⟩).id then f r else r) =
      rows.set i (f (rows.get ⟨i, hi⟩)) := by
  apply List.ext_getElem
  · simp
  · intro j h1 h2
    have hj : j < rows.length := by simpa using h2
    rw [List.getElem_map, List.getElem_set]
    by_cases hij : i = j
    · subst hij
      simp [List.get_eq_getElem]
    · have hne : ¬ rows[j].id = rows[i].id := by
        intro he
        have hmap : (rows.map CmdRow.id).get ⟨j, by simpa using hj⟩ =
            (rows.map CmdRow.id).get ⟨i, by simpa using hi⟩ := by
          simp only [List.get_eq_getElem, List.getElem_map]
          exact he
        have hfin := hids.get_inj_iff.mp hmap
        exact hij (congrArg Fin.val hfin).symm
      simp [hne, hij]

/-- C10: with distinct primary keys, `end_command` leaves the table's
length unchanged and either leaves the table entirely unchanged (in
particular it succeeds and does so whenever the session has no row with
null `ended_at`), or rewrites exactly one row — a most recently started
unfinished row of the session — replacing only its `ended_at` and
`exit_code` fields and leaving every other row untouched. -/
theorem end_command_frame (rows : List CmdRow) (sid : String) (ec now : Int)
    (hids : (rows.map CmdRow.id).Nodup) :
    ((∀ r ∈ rows, r.session_id = sid → r.ended_at ≠ none) →
      Database.end_command rows sid ec now = rows) ∧
    (Database.end_command rows sid ec now = rows ∨
      ∃ i, ∃ hi : i < rows.length,
        (rows.get ⟨i, hi⟩).session_id = sid ∧
        (rows.get ⟨i, hi⟩).ended_at = none ∧
        (∀ q ∈ rows, q.session_id = sid → q.ended_at = none →
          q.started_at ≤ (rows.get ⟨i, hi⟩).started_at) ∧
        Database.end_command rows sid ec now =
          rows.set i (endCommandUpdate now ec (rows.get ⟨i, hi⟩))) := by
  constructor
  · intro hno
    have hfil : rows.filter (fun r => r.session_id == sid && r.ended_at.isNone) = [] := by
      rw [List.filter_eq_nil_iff]
      intro r hr
      simp only [Bool.and_eq_true, beq_iff_eq, Option.isNone_iff_eq_none, not_and]
      intro h1 h2
      exact hno r hr h1 h2
    have hsel : selectLatestUnfinished rows sid = none := by
      unfold selectLatestUnfinished
      rw [hfil]
      rfl
    simp [Database.end_command, hsel]
  · rcases hsel : selectLatestUnfinished rows sid with _ | c
    · left
      simp [Database.end_command, hsel]
    · right
      obtain ⟨hmem, hsid, hend, hmax⟩ := selectLatestUnfinished_some rows sid c hsel
      obtain ⟨⟨i, hi⟩, hget⟩ := List.mem_iff_get.mp hmem
      refine ⟨i, hi, ?_, ?_, ?_, ?_⟩
      · rw [hget]; exact hsid
      · rw [hget]; exact hend
      · rw [hget]; exact hmax
      · have : Database.end_command rows sid ec now =
            rows.map (fun r => if r.id == c.id then endCommandUpdate now ec r else r) := by
          simp [Database.end_command, hsel]
        rw [this, ← hget, map_update_id_eq_set rows i hi hids (endCommandUpdate now ec)]

theorem end_command_frame_witness :
    (wRows.map CmdRow.id).Nodup ∧
    (Database.end_command wRows "s1" 0 100 = wRows ∨
      ∃ i, ∃ hi : i < wRows.length,
        (wRows.get ⟨i, hi⟩).session_id = "s1" ∧
        (wRows.get ⟨i, hi⟩).ended_at = none ∧
        (∀ q ∈ wRows, q.session_id = "s1" → q.ended_at = none →
          q.started_at ≤ (wRows.get ⟨i, hi⟩).started_at) ∧
        Database.end_command wRows "s1" 0 100 =
          wRows.set i (endCommandUpdate 100 0 (wRows.get ⟨i, hi⟩))) :=
  ⟨by decide, (end_command_frame wRows "s1" 0 100 (by decide)).2⟩

end Vibe
